import Mathlib

/-!
# Verification of `neai_format.py` (cartesiam/neai-studio-data-tools)

Shallow embedding of the data-reshaping script `neai_format.py`.  The script
reads a CSV-like text stream, keeps a configured subset of columns, accumulates
the kept values of consecutive rows into a flat buffer, and emits one output
line each time the buffer reaches `len(COLUMNS_TO_KEEP) * BUFFER_SIZE` values.

Modelling conventions:
* The module-level configuration constants (`INPUT_FILE_VALUE_DELIMITER`,
  `INPUT_FILE_DECIMAL_DELIMITER`, `INPUT_FILE_HAS_HEADERS`, `BUFFER_SIZE`,
  `DOWNSAMPLE_FACTOR`, `LINES_TO_BUILD`) become the fields of `Config`.
  `LINES_TO_BUILD = 'ALL'` is `none`; an integer limit is `some L`.
  `INPUT_FILE_HAS_HEADERS` is a `Bool` (the script additionally rejects
  non-boolean values at runtime; that case is unrepresentable here).
* `exit_on_error` aborts the whole run; every call site becomes a constructor
  of `Err` carrying the data interpolated into the message.  The spec's error
  kinds map to constructors as follows: ConfigurationError ↦ `delimEqual`,
  `emptyColumns`, `labelsNoHeaders`; LookupError ↦ `labelNotFound`;
  DataFormatError ↦ `shortLine`, `parseFail`.  `indexError` and `zeroDivision`
  model Python runtime exceptions (negative out-of-range indexing,
  `% 0` / `/ 0`) that the script does not catch.
* Python `float(...)` together with `str(...)` of the result is abstracted as
  a parameter `conv : String → Option String`: `conv s = some t` models
  `str(float(s)) = t`, `none` models `ValueError`.  The buffer stores the
  rendered strings, exactly as `tmp_buffer.append(str(value_float))` does.
  `simpleFloat` below is a concrete instance of `conv`, faithful to Python on
  the one-decimal numerals (`"1.5"`, `"0.3"`, ...) used as concrete inputs:
  on those, `str(float(s)) = s`.
* The input stream is a list of the strings yielded by line iteration
  (trailing newline characters are irrelevant: the script strips them).
* The output file is modelled byte-exactly in `DState.file`; `DState.outLines`
  and `DState.appended` are ghost fields recording, respectively, each flushed
  buffer and every value ever appended, used only to state theorems.
* Python `len(tmp_buffer) / len(columns_indexes) == BUFFER_SIZE` is exact
  true division compared with an integer; for integer operands this holds
  exactly when `len(tmp_buffer) = BUFFER_SIZE * len(columns_indexes)` (the
  quotient of these small integers is exactly representable), which is how
  the flush condition is written here.  A zero divisor raises
  `ZeroDivisionError` in Python, modelled by the explicit `zeroDivision`
  guard at the same program point.
-/

/-- A configured column selector: an integer (1-based) position or a header
label, mirroring the `int`-vs-`str` elements of `COLUMNS_TO_KEEP`. -/
inductive Selector where
  | col (n : Int)
  | label (s : String)
deriving Repr, DecidableEq

/-- The abort causes of the script: each constructor corresponds to one
`exit_on_error` call site (or an uncaught Python runtime exception), with the
data the message interpolates. -/
inductive Err where
  | delimEqual
  | emptyColumns
  | labelsNoHeaders
  | labelNotFound (sel : Selector)
  | shortLine (lineIndex : Nat) (columnNumber : Int) (values : List String)
  | parseFail (original transformed : String) (lineIndex : Nat)
  | indexError (lineIndex : Nat)
  | zeroDivision
deriving Repr, DecidableEq

/-- The module-level configuration constants of `neai_format.py`. -/
structure Config where
  valueDelim : String
  decimalDelim : String
  hasHeaders : Bool
  bufferSize : Nat
  downsample : Nat
  linesToBuild : Option Int
deriving Repr, DecidableEq

/-- Python `s.rstrip(c)` for a single character: remove every trailing
occurrence of `c`. -/
def pyRstrip (s : String) (c : Char) : String :=
  ⟨(s.data.reverse.dropWhile (fun x => x = c)).reverse⟩

/-- Python `sep.join(l)`. -/
def pyJoin (sep : String) : List String → String
  | [] => ""
  | [x] => x
  | x :: y :: xs => x ++ sep ++ pyJoin sep (y :: xs)

/-- Python list indexing `l[i]` for `int` `i`: negative indexes count from the
end; out-of-range indexing is an `IndexError`, modelled as `none`. -/
def pyGet (l : List String) (i : Int) : Option String :=
  if 0 ≤ i then l.get? i.toNat
  else if 0 ≤ i + l.length then l.get? (i + l.length).toNat
  else none

/-- Python `s.split(sep)` for non-empty `sep`, as a left-to-right
non-overlapping scan over the character list.  The first argument is fuel,
instantiated with the list's length (every step consumes at least one
character, so the zero-fuel branch is unreachable); this keeps the recursion
structural. -/
def pySplitAux (sep : List Char) : Nat → List Char → List Char → List (List Char)
  | _, acc, [] => [acc.reverse]
  | 0, acc, l => [acc.reverse ++ l]
  | fuel + 1, acc, c :: cs =>
    if sep.isPrefixOf (c :: cs) then
      acc.reverse :: pySplitAux sep fuel [] ((c :: cs).drop sep.length)
    else
      pySplitAux sep fuel (c :: acc) cs

/-- Python `s.split(sep)`: `"".split(sep) = [""]`, `"a,,b".split(",") =
["a", "", "b"]`, matches are non-overlapping left to right.  Python raises
`ValueError` on an empty separator; the script's delimiters are non-empty, so
that case is modelled as the identity split. -/
def pySplit (s sep : String) : List String :=
  if sep.data = [] then [s]
  else (pySplitAux sep.data s.data.length [] s.data).map (fun cs => ⟨cs⟩)

/-- Python `s.replace(old, new)` for non-empty `old`: replace every
non-overlapping occurrence left to right.  Fuel as in `pySplitAux`. -/
def pyReplaceAux (old new : List Char) : Nat → List Char → List Char
  | _, [] => []
  | 0, l => l
  | fuel + 1, c :: cs =>
    if old.isPrefixOf (c :: cs) then
      new ++ pyReplaceAux old new fuel ((c :: cs).drop old.length)
    else
      c :: pyReplaceAux old new fuel cs

/-- Python `s.replace(old, new)`.  An empty `old` (which Python treats as
inserting `new` between all characters) cannot arise from the script's
non-empty delimiters and is modelled as the identity. -/
def pyReplace (s old new : String) : String :=
  if old.data = [] then s
  else ⟨pyReplaceAux old.data new.data s.data.length s.data⟩

/-- `read_values_of_line`: fail when the two delimiters coincide (checked
before the line is even cleaned), else strip trailing `'\n'` then `'\r'` and
split on the value delimiter. -/
def read_values_of_line (cfg : Config) (line : String) : Except Err (List String) :=
  if cfg.valueDelim = cfg.decimalDelim then
    .error .delimEqual
  else
    .ok (pySplit (pyRstrip (pyRstrip line '\n') '\r') cfg.valueDelim)

/-- `convert_to_float`: replace the decimal delimiter by `'.'`, then convert.
`conv` abstracts `str(float(·))`; on `ValueError` the script exits (the three
message variants all abort the run and are collapsed into `parseFail`, which
carries the data they interpolate). -/
def convert_to_float (cfg : Config) (conv : String → Option String)
    (value_str : String) (line_number : Nat) : Except Err String :=
  let float_str := pyReplace value_str cfg.decimalDelim "."
  match conv float_str with
  | some v => .ok v
  | none => .error (.parseFail value_str float_str line_number)

/-- The inner `for idx in columns_indexes` loop of `create_dataset`, returning
the values the row contributes in column-visit order: for each index, first
the `nb_values <= idx` short-line check, then `values[idx]`, then
`convert_to_float`. -/
def buildRow (cfg : Config) (conv : String → Option String) (lineIndex : Nat)
    (values : List String) : List Int → Except Err (List String)
  | [] => .ok []
  | idx :: rest =>
    if (values.length : Int) ≤ idx then
      .error (.shortLine lineIndex (idx + 1) values)
    else
      match pyGet values idx with
      | none => .error (.indexError lineIndex)
      | some v =>
        match convert_to_float cfg conv v lineIndex with
        | .error e => .error e
        | .ok s =>
          match buildRow cfg conv lineIndex values rest with
          | .error e => .error e
          | .ok tail => .ok (s :: tail)

/-- The mutable state of `create_dataset`: `nb` is `nb_lines_built`, `buf` is
`tmp_buffer`, `file` is the byte content of the output file.  `outLines`
(each flushed buffer) and `appended` (every value ever appended) are ghost
fields used only to state properties. -/
structure DState where
  nb : Nat
  buf : List String
  outLines : List (List String)
  file : String
  appended : List String
deriving Repr, DecidableEq

/-- The flush branch: write `','.join(tmp_buffer)` to the output file, with a
leading newline exactly when `nb_lines_built > 0`; clear the buffer and bump
the counter. -/
def flushState (st : DState) : DState :=
  { st with
    nb := st.nb + 1
    buf := []
    outLines := st.outLines ++ [st.buf]
    file := st.file ++ (if st.nb > 0 then "\n" ++ pyJoin "," st.buf else pyJoin "," st.buf) }

/-- The `LINES_TO_BUILD` stop check at the top of the loop body:
`isinstance(LINES_TO_BUILD, int) and nb_lines_built >= LINES_TO_BUILD`. -/
def stopReached (cfg : Config) (nb : Nat) : Bool :=
  match cfg.linesToBuild with
  | some limit => decide (limit ≤ (nb : Int))
  | none => false

/-- The `if line_index % DOWNSAMPLE_FACTOR == 0:` block of the loop body: a
participating row runs the column loop and extends the buffer (and the
`appended` ghost); any other row leaves the state untouched. -/
def participate (cfg : Config) (conv : String → Option String) (columns : List Int)
    (lineIndex : Nat) (values : List String) (st : DState) : Except Err DState :=
  if lineIndex % cfg.downsample = 0 then
    match buildRow cfg conv lineIndex values columns with
    | .error e => .error e
    | .ok vs => .ok { st with buf := st.buf ++ vs, appended := st.appended ++ vs }
  else .ok st

/-- One iteration of the `for line_index, line in enumerate(...)` body, after
the stop check: read the line's values; if `line_index % DOWNSAMPLE_FACTOR == 0`
run the column loop and extend the buffer; then, if
`len(tmp_buffer) / len(columns_indexes) == BUFFER_SIZE`, flush.  A zero
downsample factor or an empty column list raises `ZeroDivisionError` at the
corresponding program point. -/
def processLine (cfg : Config) (conv : String → Option String) (columns : List Int)
    (lineIndex : Nat) (line : String) (st : DState) : Except Err DState :=
  match read_values_of_line cfg line with
  | .error e => .error e
  | .ok values =>
    if cfg.downsample = 0 then .error .zeroDivision
    else
      match participate cfg conv columns lineIndex values st with
      | .error e => .error e
      | .ok st1 =>
        if columns.length = 0 then .error .zeroDivision
        else if st1.buf.length = cfg.bufferSize * columns.length then
          .ok (flushState st1)
        else .ok st1

/-- The whole `for` loop of `create_dataset`, over the remaining lines, with
the current `line_index`; the stop check runs before each line's body. -/
def create_dataset_from (cfg : Config) (conv : String → Option String) (columns : List Int) :
    List String → Nat → DState → Except Err DState
  | [], _, st => .ok st
  | line :: rest, lineIndex, st =>
    if stopReached cfg st.nb then .ok st
    else
      match processLine cfg conv columns lineIndex line st with
      | .error e => .error e
      | .ok st1 => create_dataset_from cfg conv columns rest (lineIndex + 1) st1

/-- `enumerate(input_file_reader, start=int(INPUT_FILE_HAS_HEADERS) + 1)`:
line indexing starts at 2 when a header line was consumed, else at 1. -/
def startIndex (cfg : Config) : Nat :=
  if cfg.hasHeaders then 2 else 1

/-- `create_dataset`, applied to the stream already advanced past any header
line: counter and buffer start empty, no output written yet. -/
def initState : DState :=
  ⟨0, [], [], "", []⟩

def create_dataset (cfg : Config) (conv : String → Option String) (columns : List Int)
    (lines : List String) : Except Err DState :=
  create_dataset_from cfg conv columns lines (startIndex cfg) initState

/-- `get_headers`: when headers are declared present, consume the first line
(`readline` yields `""` on an empty stream) and split it; otherwise leave the
stream untouched.  The non-fatal float-looking-header warning only logs and is
not modelled. -/
def get_headers (cfg : Config) (inputLines : List String) :
    Except Err (Option (List String) × List String) :=
  if cfg.hasHeaders then
    match read_values_of_line cfg (inputLines.headD "") with
    | .error e => .error e
    | .ok vals => .ok (some vals, inputLines.tail)
  else .ok (none, inputLines)

/-- Whether a selector is a Python `int` (`isinstance(column, int)`). -/
def Selector.isInt : Selector → Bool
  | .col _ => true
  | .label _ => false

/-- Python equality between a selector and a header field: a label compares by
string equality; an `int` never equals a `str`. -/
def selectorMatches (sel : Selector) (h : String) : Bool :=
  match sel with
  | .label s => h = s
  | .col _ => false

/-- Python `headers.index(label)`: the position of the first element equal to
the selector, `none` (a `ValueError`) when there is none. -/
def pyFindIdx (hs : List String) (sel : Selector) : Option Nat :=
  match hs with
  | [] => none
  | h :: t => if selectorMatches sel h then some 0 else (pyFindIdx t sel).map (· + 1)

/-- The label branch of `get_columns_indexes_to_keep`: resolve the selectors
left to right via `headers.index`, aborting at the first one not found. -/
def resolveLabels (hs : List String) : List Selector → Except Err (List Int)
  | [] => .ok []
  | sel :: rest =>
    match pyFindIdx hs sel with
    | none => .error (.labelNotFound sel)
    | some i =>
      match resolveLabels hs rest with
      | .error e => .error e
      | .ok t => .ok ((i : Int) :: t)

/-- `get_columns_indexes_to_keep`: empty list is a configuration error; an
all-`int` list maps each selector to its value minus 1; otherwise the label
path requires `INPUT_FILE_HAS_HEADERS` and resolves via `headers.index`.
(When the flag is true the caller always passes `some` headers; `getD []` is
unreachable filler for the other case.) -/
def get_columns_indexes_to_keep (cfg : Config) (headers : Option (List String))
    (cols : List Selector) : Except Err (List Int) :=
  if cols.isEmpty then .error .emptyColumns
  else if cols.all Selector.isInt then
    .ok (cols.map (fun c => match c with | .col n => n - 1 | .label _ => 0))
  else if ¬ cfg.hasHeaders then .error .labelsNoHeaders
  else resolveLabels (headers.getD []) cols

/-- The main sequence after the file-existence checks: read headers, resolve
the column selectors, run `create_dataset`. -/
def run (cfg : Config) (conv : String → Option String) (selectors : List Selector)
    (inputLines : List String) : Except Err DState :=
  match get_headers cfg inputLines with
  | .error e => .error e
  | .ok (headers, rest) =>
    match get_columns_indexes_to_keep cfg headers selectors with
    | .error e => .error e
    | .ok columns => create_dataset cfg conv columns rest

/-- A concrete instance of the abstract float conversion, faithful to Python
`str(float(·))` on one-decimal numerals: on a string `d₁.d₂` with `d₁`, `d₂`
decimal digits, `float` parses it and `str` renders it back unchanged;
everything else is rejected.  Used for concrete test inputs only. -/
def simpleFloat (s : String) : Option String :=
  match s.data with
  | [a, '.', b] => if a.isDigit ∧ b.isDigit then some s else none
  | _ => none

/-- `DOWNSAMPLE_FACTOR`-participating line count: how many of the next `n`
line indexes, starting at `start`, satisfy `line_index % F == 0`. -/
def participCount (f : Nat) : Nat → Nat → Nat
  | _, 0 => 0
  | start, n + 1 => (if start % f = 0 then 1 else 0) + participCount f (start + 1) n

/-! ## Helper lemmas -/

theorem string_empty_append (s : String) : "" ++ s = s := by
  cases s
  rfl

theorem buildRow_length (cfg : Config) (conv : String → Option String) (i : Nat)
    (values : List String) :
    ∀ (cols : List Int) (vs : List String),
      buildRow cfg conv i values cols = .ok vs → vs.length = cols.length := by
  intro cols
  induction cols with
  | nil =>
    intro vs h
    simp [buildRow] at h
    simp [← h]
  | cons idx rest ih =>
    intro vs h
    unfold buildRow at h
    split at h
    · exact absurd h (by simp)
    · split at h
      · exact absurd h (by simp)
      · split at h
        · exact absurd h (by simp)
        · split at h
          · exact absurd h (by simp)
          · next tail hb =>
            simp only [Except.ok.injEq] at h
            subst h
            simp [ih tail hb]

theorem participate_ok_elim {cfg : Config} {conv : String → Option String}
    {columns : List Int} {i : Nat} {values : List String} {st st1 : DState}
    (h : participate cfg conv columns i values st = .ok st1) :
    (i % cfg.downsample ≠ 0 ∧ st1 = st) ∨
    (i % cfg.downsample = 0 ∧ ∃ vs, buildRow cfg conv i values columns = .ok vs ∧
       st1 = { st with buf := st.buf ++ vs, appended := st.appended ++ vs }) := by
  unfold participate at h
  split at h
  · next hp =>
    split at h
    · exact absurd h (by simp)
    · next vs hb =>
      simp only [Except.ok.injEq] at h
      exact Or.inr ⟨hp, vs, hb, h.symm⟩
  · next hp =>
    simp only [Except.ok.injEq] at h
    exact Or.inl ⟨hp, h.symm⟩

/-- Case analysis for a successful `processLine` step: the line was read, the
divisors are non-zero, the state first either stays (non-participating line)
or gains the row's values, and then either does not flush or flushes. -/
theorem processLine_ok_elim {cfg : Config} {conv : String → Option String}
    {columns : List Int} {i : Nat} {line : String} {st st' : DState}
    (h : processLine cfg conv columns i line st = .ok st') :
    ∃ values st1,
      read_values_of_line cfg line = .ok values ∧
      cfg.downsample ≠ 0 ∧ columns.length ≠ 0 ∧
      participate cfg conv columns i values st = .ok st1 ∧
      ((st1.buf.length ≠ cfg.bufferSize * columns.length ∧ st' = st1) ∨
       (st1.buf.length = cfg.bufferSize * columns.length ∧ st' = flushState st1)) := by
  unfold processLine at h
  split at h
  · exact absurd h (by simp)
  · next values hr =>
    split at h
    · exact absurd h (by simp)
    · next hd =>
      split at h
      · exact absurd h (by simp)
      · next st1 hp =>
        split at h
        · exact absurd h (by simp)
        · next hc =>
          split at h
          · next heq =>
            simp only [Except.ok.injEq] at h
            exact ⟨values, st1, hr, hd, hc, hp, Or.inr ⟨heq, h.symm⟩⟩
          · next hne =>
            simp only [Except.ok.injEq] at h
            exact ⟨values, st1, hr, hd, hc, hp, Or.inl ⟨hne, h.symm⟩⟩

theorem pyJoin_append_one (sep : String) (xs : List String) (x : String) :
    pyJoin sep (xs ++ [x]) =
      (if xs.isEmpty then x else pyJoin sep xs ++ sep ++ x) := by
  induction xs with
  | nil => simp [pyJoin]
  | cons a as ih =>
    cases as with
    | nil => simp [pyJoin]
    | cons b bs =>
      simp only [List.cons_append, List.isEmpty_cons] at *
      simp only [pyJoin, ih]
      simp [String.append_assoc]

/-- A string that Python's `str(float(·))` could have produced: non-empty and
newline-free. -/
def GoodStr (s : String) : Prop := s.data ≠ [] ∧ '\n' ∉ s.data

/-- The float-conversion abstraction only returns renderings of floats, which
are non-empty and contain no newline. -/
def ConvGood (conv : String → Option String) : Prop :=
  ∀ s t, conv s = some t → GoodStr t

theorem convert_to_float_ok_conv {cfg : Config} {conv : String → Option String}
    {v : String} {i : Nat} {s : String}
    (h : convert_to_float cfg conv v i = .ok s) :
    conv (pyReplace v cfg.decimalDelim ".") = some s := by
  cases hc : conv (pyReplace v cfg.decimalDelim ".") with
  | none => simp [convert_to_float, hc] at h
  | some t =>
    simp [convert_to_float, hc] at h
    exact congrArg some h

theorem buildRow_good {cfg : Config} {conv : String → Option String} {i : Nat}
    {values : List String} (hconv : ConvGood conv) :
    ∀ {cols : List Int} {vs : List String},
      buildRow cfg conv i values cols = .ok vs → ∀ v ∈ vs, GoodStr v := by
  intro cols
  induction cols with
  | nil =>
    intro vs h
    simp [buildRow] at h
    intro v hv
    subst h
    simp at hv
  | cons idx rest ih =>
    intro vs h
    unfold buildRow at h
    split at h
    · exact absurd h (by simp)
    · split at h
      · exact absurd h (by simp)
      · next v hg =>
        split at h
        · exact absurd h (by simp)
        · next s hc =>
          split at h
          · exact absurd h (by simp)
          · next tail hb =>
            simp only [Except.ok.injEq] at h
            subst h
            intro u hu
            rcases List.mem_cons.mp hu with h1 | h2
            · subst h1
              exact hconv _ _ (convert_to_float_ok_conv hc)
            · exact ih hb u h2

theorem mem_of_getLast?_char {l : List Char} {a : Char} (h : l.getLast? = some a) :
    a ∈ l := by
  induction l with
  | nil => simp [List.getLast?] at h
  | cons x xs ih =>
    cases xs with
    | nil =>
      simp [List.getLast?] at h
      simp [h]
    | cons y ys =>
      rw [List.getLast?_cons_cons] at h
      exact List.mem_cons_of_mem x (ih h)

theorem getLast?_isSome_char {l : List Char} (h : l ≠ []) :
    ∃ c, l.getLast? = some c := by
  induction l with
  | nil => exact absurd rfl h
  | cons x xs ih =>
    cases xs with
    | nil => exact ⟨x, by simp [List.getLast?]⟩
    | cons y ys =>
      obtain ⟨c, hc⟩ := ih (by simp)
      exact ⟨c, by rw [List.getLast?_cons_cons]; exact hc⟩

theorem goodStr_append {a b : String} (ha : GoodStr a) (hb : GoodStr b) :
    GoodStr (a ++ b) := by
  refine ⟨?_, ?_⟩
  · rw [String.data_append]
    simp [ha.1]
  · rw [String.data_append]
    intro hmem
    rcases List.mem_append.mp hmem with h1 | h2
    · exact ha.2 h1
    · exact hb.2 h2

theorem goodStr_comma : GoodStr "," := by
  constructor <;> simp [String.data]

theorem pyJoin_comma_good {l : List String} (hne : l ≠ [])
    (h : ∀ v ∈ l, GoodStr v) : GoodStr (pyJoin "," l) := by
  induction l with
  | nil => exact absurd rfl hne
  | cons x xs ih =>
    cases xs with
    | nil =>
      simp only [pyJoin]
      exact h x (by simp)
    | cons y ys =>
      simp only [pyJoin]
      refine goodStr_append (goodStr_append (h x (by simp)) goodStr_comma) ?_
      exact ih (by simp) (fun v hv => h v (List.mem_cons_of_mem x hv))

/-- The last byte of a newline-join of non-empty newline-free lines is the
last byte of the last line, hence not a newline. -/
theorem pyJoin_newline_getLast {ls : List String} (h : ∀ s ∈ ls, GoodStr s)
    (hne : ls ≠ []) :
    (pyJoin "\n" ls).data ≠ [] ∧ (pyJoin "\n" ls).data.getLast? ≠ some '\n' := by
  induction ls with
  | nil => exact absurd rfl hne
  | cons x xs ih =>
    cases xs with
    | nil =>
      simp only [pyJoin]
      have hx := h x (by simp)
      refine ⟨hx.1, ?_⟩
      intro hlast
      exact hx.2 (mem_of_getLast?_char hlast)
    | cons y ys =>
      have hrec := ih (fun s hs => h s (List.mem_cons_of_mem x hs)) (by simp)
      simp only [pyJoin] at *
      constructor
      · rw [String.data_append]
        simp [hrec.1]
      · rw [String.data_append, List.getLast?_append]
        obtain ⟨c, hc⟩ := getLast?_isSome_char hrec.1
        rw [hc]
        simp only [Option.or_some, ne_eq, Option.some.injEq]
        intro hcn
        exact hrec.2 (hcn ▸ hc)

theorem create_dataset_from_nil (cfg : Config) (conv : String → Option String)
    (columns : List Int) (i : Nat) (st : DState) :
    create_dataset_from cfg conv columns [] i st = .ok st := rfl

theorem create_dataset_from_cons_stop {cfg : Config} {conv : String → Option String}
    {columns : List Int} {line : String} {rest : List String} {i : Nat} {st : DState}
    (hsr : stopReached cfg st.nb = true) :
    create_dataset_from cfg conv columns (line :: rest) i st = .ok st := by
  have heq : create_dataset_from cfg conv columns (line :: rest) i st =
      if stopReached cfg st.nb = true then .ok st else
        match processLine cfg conv columns i line st with
        | .error e => .error e
        | .ok st1 => create_dataset_from cfg conv columns rest (i + 1) st1 := rfl
  rw [heq, hsr]
  simp

theorem create_dataset_from_cons_go {cfg : Config} {conv : String → Option String}
    {columns : List Int} {line : String} {rest : List String} {i : Nat} {st : DState}
    (hsr : stopReached cfg st.nb = false) :
    create_dataset_from cfg conv columns (line :: rest) i st =
      match processLine cfg conv columns i line st with
      | .error e => .error e
      | .ok st1 => create_dataset_from cfg conv columns rest (i + 1) st1 := by
  have heq : create_dataset_from cfg conv columns (line :: rest) i st =
      if stopReached cfg st.nb = true then .ok st else
        match processLine cfg conv columns i line st with
        | .error e => .error e
        | .ok st1 => create_dataset_from cfg conv columns rest (i + 1) st1 := rfl
  rw [heq, hsr]
  simp

/-- A successful line step keeps `nb_lines_built` equal to the number of
flushed rows. -/
theorem processLine_nb_out {cfg : Config} {conv : String → Option String}
    {columns : List Int} {i : Nat} {line : String} {st st' : DState}
    (h : processLine cfg conv columns i line st = .ok st')
    (hinv : st.nb = st.outLines.length) : st'.nb = st'.outLines.length := by
  obtain ⟨values, st1, _, _, _, hpart, hfl⟩ := processLine_ok_elim h
  have h1 : st1.nb = st1.outLines.length := by
    rcases participate_ok_elim hpart with ⟨_, rfl⟩ | ⟨_, vs, _, rfl⟩
    · exact hinv
    · exact hinv
  rcases hfl with ⟨_, rfl⟩ | ⟨_, rfl⟩
  · exact h1
  · simp [flushState, h1]

theorem loop_nb_out (cfg : Config) (conv : String → Option String) (columns : List Int) :
    ∀ (lines : List String) (i : Nat) (st st' : DState),
      st.nb = st.outLines.length →
      create_dataset_from cfg conv columns lines i st = .ok st' →
      st'.nb = st'.outLines.length := by
  intro lines
  induction lines with
  | nil =>
    intro i st st' hinv h
    rw [create_dataset_from_nil] at h
    simp at h
    exact h ▸ hinv
  | cons line rest ih =>
    intro i st st' hinv h
    cases hsr : stopReached cfg st.nb with
    | true =>
      rw [create_dataset_from_cons_stop hsr] at h
      simp at h
      exact h ▸ hinv
    | false =>
      rw [create_dataset_from_cons_go hsr] at h
      split at h
      · exact absurd h (by simp)
      · next st1 hp =>
        exact ih (i + 1) st1 st' (processLine_nb_out hp hinv) h

/-- C2's inductive core: from any state whose buffer is a multiple of the
column count and strictly below the flush threshold, every later state keeps
both properties, and every flushed row has exactly threshold-many values. -/
theorem loop_buf_inv (cfg : Config) (conv : String → Option String)
    (columns : List Int) (hB : 0 < cfg.bufferSize) :
    ∀ (lines : List String) (i : Nat) (st st' : DState),
      st.buf.length % columns.length = 0 →
      st.buf.length < cfg.bufferSize * columns.length →
      (∀ l ∈ st.outLines, l.length = cfg.bufferSize * columns.length) →
      create_dataset_from cfg conv columns lines i st = .ok st' →
      st'.buf.length % columns.length = 0 ∧
      st'.buf.length < cfg.bufferSize * columns.length ∧
      ∀ l ∈ st'.outLines, l.length = cfg.bufferSize * columns.length := by
  intro lines
  induction lines with
  | nil =>
    intro i st st' h1 h2 h3 h
    rw [create_dataset_from_nil] at h
    simp at h
    subst h
    exact ⟨h1, h2, h3⟩
  | cons line rest ih =>
    intro i st st' h1 h2 h3 h
    cases hsr : stopReached cfg st.nb with
    | true =>
      rw [create_dataset_from_cons_stop hsr] at h
      simp at h
      subst h
      exact ⟨h1, h2, h3⟩
    | false =>
      rw [create_dataset_from_cons_go hsr] at h
      split at h
      · exact absurd h (by simp)
      · next st1 hp =>
        obtain ⟨values, stM, hr, hd, hc, hpart, hfl⟩ := processLine_ok_elim hp
        have hCpos : 0 < columns.length := Nat.pos_of_ne_zero hc
        -- the intermediate state's buffer
        have hM : stM.buf.length % columns.length = 0 ∧
            stM.buf.length ≤ cfg.bufferSize * columns.length ∧
            stM.outLines = st.outLines := by
          rcases participate_ok_elim hpart with ⟨_, rfl⟩ | ⟨_, vs, hb, rfl⟩
          · exact ⟨h1, Nat.le_of_lt h2, rfl⟩
          · have hvs : vs.length = columns.length := buildRow_length cfg conv i values columns vs hb
            constructor
            · simp [List.length_append, hvs, Nat.add_mod_right, h1]
            constructor
            · simp only [List.length_append, hvs]
              obtain ⟨k, hk⟩ := Nat.dvd_of_mod_eq_zero h1
              have hkB : k < cfg.bufferSize := by
                rw [hk, Nat.mul_comm cfg.bufferSize columns.length] at h2
                exact (Nat.mul_lt_mul_left hCpos).mp h2
              rw [hk, Nat.mul_comm cfg.bufferSize columns.length]
              calc columns.length * k + columns.length
                  = columns.length * (k + 1) := by ring
                _ ≤ columns.length * cfg.bufferSize := Nat.mul_le_mul_left _ hkB
            · rfl
        rcases hfl with ⟨hne, hst⟩ | ⟨heq, hst⟩
        · rw [hst] at h
          exact ih (i + 1) stM st' hM.1 (Nat.lt_of_le_of_ne hM.2.1 hne)
            (hM.2.2 ▸ h3) h
        · rw [hst] at h
          refine ih (i + 1) (flushState stM) st' ?_ ?_ ?_ h
          · simp [flushState]
          · simp only [flushState, List.length_nil]
            exact Nat.mul_pos hB hCpos
          · intro l hl
            simp only [flushState, List.mem_append, List.mem_singleton] at hl
            rcases hl with hl | hl
            · exact h3 l (hM.2.2 ▸ hl)
            · exact hl ▸ heq

/-- C3/C10's inductive core, unbounded case: with `LINES_TO_BUILD = 'ALL'`,
starting from a buffer holding `r` complete row-contributions, a successful
run over `lines` flushes one row per full `BUFFER_SIZE` participating rows and
leaves the remainder in the buffer. -/
theorem loop_count_none (cfg : Config) (conv : String → Option String)
    (columns : List Int) (hL : cfg.linesToBuild = none) (hB : 0 < cfg.bufferSize) :
    ∀ (lines : List String) (i r : Nat) (st st' : DState),
      st.buf.length = r * columns.length → r < cfg.bufferSize →
      create_dataset_from cfg conv columns lines i st = .ok st' →
      st'.nb = st.nb + (r + participCount cfg.downsample i lines.length) / cfg.bufferSize ∧
      st'.buf.length =
        ((r + participCount cfg.downsample i lines.length) % cfg.bufferSize) *
          columns.length := by
  intro lines
  induction lines with
  | nil =>
    intro i r st st' hbuf hr h
    rw [create_dataset_from_nil] at h
    simp at h
    subst h
    simp [participCount, Nat.div_eq_of_lt hr, Nat.mod_eq_of_lt hr, hbuf]
  | cons line rest ih =>
    intro i r st st' hbuf hr h
    have hsrn : stopReached cfg st.nb = false := by simp [stopReached, hL]
    rw [create_dataset_from_cons_go hsrn] at h
    split at h
    · exact absurd h (by simp)
    · next st1 hp =>
      obtain ⟨values, stM, hrv, hd, hc, hpart, hfl⟩ := processLine_ok_elim hp
      have hCpos : 0 < columns.length := Nat.pos_of_ne_zero hc
      have hPdef : participCount cfg.downsample i (line :: rest).length =
          (if i % cfg.downsample = 0 then 1 else 0) +
            participCount cfg.downsample (i + 1) rest.length := rfl
      rcases participate_ok_elim hpart with ⟨hnp, hMe⟩ | ⟨hpp, vs, hbr, hMe⟩
      · rcases hfl with ⟨hne, hst⟩ | ⟨heq, hst⟩
        · rw [hst, hMe] at h
          have hrec := ih (i + 1) r st st' hbuf hr h
          rw [hPdef, if_neg hnp]
          simpa using hrec
        · exfalso
          rw [hMe, hbuf] at heq
          have : r = cfg.bufferSize := by
            rw [Nat.mul_comm r columns.length,
              Nat.mul_comm cfg.bufferSize columns.length] at heq
            exact Nat.eq_of_mul_eq_mul_left hCpos heq
          omega
      · have hvs : vs.length = columns.length :=
          buildRow_length cfg conv i values columns vs hbr
        have hMlen : stM.buf.length = (r + 1) * columns.length := by
          rw [hMe]
          simp [List.length_append, hvs, hbuf]
          ring
        have hnbM : stM.nb = st.nb := by rw [hMe]
        by_cases hrB : r + 1 = cfg.bufferSize
        · rcases hfl with ⟨hne, hst⟩ | ⟨heq, hst⟩
          · exfalso
            apply hne
            rw [hMlen, hrB]
          · rw [hst] at h
            have hbuf0 : (flushState stM).buf.length = 0 * columns.length := by
              simp [flushState]
            have hrec := ih (i + 1) 0 (flushState stM) st' hbuf0 hB h
            have hnb1 : (flushState stM).nb = st.nb + 1 := by
              simp [flushState, hnbM]
            rw [hPdef, if_pos hpp]
            have harg : r + (1 + participCount cfg.downsample (i + 1) rest.length) =
                participCount cfg.downsample (i + 1) rest.length + cfg.bufferSize := by
              omega
            constructor
            · rw [hrec.1, hnb1, harg, Nat.add_div_right _ hB]
              simp at hrec ⊢
              omega
            · rw [hrec.2, harg, Nat.add_mod_right]
              simp
        · have hlt : r + 1 < cfg.bufferSize := by omega
          rcases hfl with ⟨hne, hst⟩ | ⟨heq, hst⟩
          · rw [hst] at h
            have hrec := ih (i + 1) (r + 1) stM st' hMlen hlt h
            rw [hPdef, if_pos hpp]
            have harg : r + (1 + participCount cfg.downsample (i + 1) rest.length) =
                r + 1 + participCount cfg.downsample (i + 1) rest.length := by omega
            rw [harg, hrec.1, hrec.2, hnbM]
            exact ⟨rfl, rfl⟩
          · exfalso
            rw [hMlen] at heq
            have : r + 1 = cfg.bufferSize := by
              rw [Nat.mul_comm (r + 1) columns.length,
                Nat.mul_comm cfg.bufferSize columns.length] at heq
              exact Nat.eq_of_mul_eq_mul_left hCpos heq
            exact hrB this

/-- C3's inductive core, bounded case: with `LINES_TO_BUILD = L`, the flushed
row count is capped at `L` (as a natural number), and the stop check at the
top of the loop body halts the iteration at the cap. -/
theorem loop_count_some (cfg : Config) (conv : String → Option String)
    (columns : List Int) (L : Int) (hL : cfg.linesToBuild = some L)
    (hB : 0 < cfg.bufferSize) :
    ∀ (lines : List String) (i r : Nat) (st st' : DState),
      st.buf.length = r * columns.length → r < cfg.bufferSize →
      st.nb ≤ L.toNat →
      create_dataset_from cfg conv columns lines i st = .ok st' →
      st'.nb = min L.toNat
        (st.nb + (r + participCount cfg.downsample i lines.length) / cfg.bufferSize) := by
  intro lines
  induction lines with
  | nil =>
    intro i r st st' hbuf hr hnb h
    rw [create_dataset_from_nil] at h
    simp at h
    subst h
    simp [participCount, Nat.div_eq_of_lt hr]
    omega
  | cons line rest ih =>
    intro i r st st' hbuf hr hnb h
    have hPdef : participCount cfg.downsample i (line :: rest).length =
        (if i % cfg.downsample = 0 then 1 else 0) +
          participCount cfg.downsample (i + 1) rest.length := rfl
    by_cases hstop : L ≤ (st.nb : Int)
    · have hsr : stopReached cfg st.nb = true := by
        simp [stopReached, hL, hstop]
      rw [create_dataset_from_cons_stop hsr] at h
      simp at h
      subst h
      have h1 : L.toNat ≤ st.nb := Int.toNat_le.mpr hstop
      have h2 : st.nb = L.toNat := le_antisymm hnb h1
      rw [h2, min_eq_left (Nat.le_add_right _ _)]
    · have hsr : stopReached cfg st.nb = false := by
        simp [stopReached, hL]
        exact lt_of_not_le hstop
      have hlt : st.nb < L.toNat := by
        rcases Nat.lt_or_ge st.nb L.toNat with hh | hh
        · exact hh
        · exact absurd (Int.toNat_le.mp hh) hstop
      rw [create_dataset_from_cons_go hsr] at h
      split at h
      · exact absurd h (by simp)
      · next st1 hp =>
        obtain ⟨values, stM, hrv, hd, hc, hpart, hfl⟩ := processLine_ok_elim hp
        have hCpos : 0 < columns.length := Nat.pos_of_ne_zero hc
        rcases participate_ok_elim hpart with ⟨hnp, hMe⟩ | ⟨hpp, vs, hbr, hMe⟩
        · rcases hfl with ⟨hne, hst⟩ | ⟨heq, hst⟩
          · rw [hst, hMe] at h
            have hrec := ih (i + 1) r st st' hbuf hr (Nat.le_of_lt hlt) h
            rw [hPdef, if_neg hnp]
            simpa using hrec
          · exfalso
            rw [hMe, hbuf] at heq
            have : r = cfg.bufferSize := by
              rw [Nat.mul_comm r columns.length,
                Nat.mul_comm cfg.bufferSize columns.length] at heq
              exact Nat.eq_of_mul_eq_mul_left hCpos heq
            omega
        · have hvs : vs.length = columns.length :=
            buildRow_length cfg conv i values columns vs hbr
          have hMlen : stM.buf.length = (r + 1) * columns.length := by
            rw [hMe]
            simp [List.length_append, hvs, hbuf]
            ring
          have hnbM : stM.nb = st.nb := by rw [hMe]
          by_cases hrB : r + 1 = cfg.bufferSize
          · rcases hfl with ⟨hne, hst⟩ | ⟨heq, hst⟩
            · exfalso
              apply hne
              rw [hMlen, hrB]
            · rw [hst] at h
              have hbuf0 : (flushState stM).buf.length = 0 * columns.length := by
                simp [flushState]
              have hnb1 : (flushState stM).nb = st.nb + 1 := by
                simp [flushState, hnbM]
              have hrec := ih (i + 1) 0 (flushState stM) st' hbuf0 hB
                (by rw [hnb1]; omega) h
              rw [hPdef, if_pos hpp]
              have harg : r + (1 + participCount cfg.downsample (i + 1) rest.length) =
                  participCount cfg.downsample (i + 1) rest.length + cfg.bufferSize := by
                omega
              rw [harg, Nat.add_div_right _ hB]
              rw [hrec, hnb1]
              simp
              omega
          · have hlt2 : r + 1 < cfg.bufferSize := by omega
            rcases hfl with ⟨hne, hst⟩ | ⟨heq, hst⟩
            · rw [hst] at h
              have hrec := ih (i + 1) (r + 1) stM st' hMlen hlt2
                (by rw [hnbM]; exact Nat.le_of_lt hlt) h
              rw [hPdef, if_pos hpp]
              have harg : r + (1 + participCount cfg.downsample (i + 1) rest.length) =
                  r + 1 + participCount cfg.downsample (i + 1) rest.length := by omega
              rw [harg, hrec, hnbM]
            · exfalso
              rw [hMlen] at heq
              have : r + 1 = cfg.bufferSize := by
                rw [Nat.mul_comm (r + 1) columns.length,
                  Nat.mul_comm cfg.bufferSize columns.length] at heq
                exact Nat.eq_of_mul_eq_mul_left hCpos heq
              exact hrB this

/-- C5's inductive core: the output file is exactly the newline-join of the
comma-joins of the flushed buffers, the flushed-row counter equals the number
of output lines, and every value involved is a non-empty newline-free float
rendering. -/
theorem loop_file_inv (cfg : Config) (conv : String → Option String)
    (columns : List Int) (hB : 0 < cfg.bufferSize) (hconv : ConvGood conv) :
    ∀ (lines : List String) (i : Nat) (st st' : DState),
      st.nb = st.outLines.length →
      st.file = pyJoin "\n" (st.outLines.map (pyJoin ",")) →
      (∀ v ∈ st.buf, GoodStr v) →
      (∀ l ∈ st.outLines, l ≠ [] ∧ ∀ v ∈ l, GoodStr v) →
      create_dataset_from cfg conv columns lines i st = .ok st' →
      st'.nb = st'.outLines.length ∧
      st'.file = pyJoin "\n" (st'.outLines.map (pyJoin ",")) ∧
      (∀ v ∈ st'.buf, GoodStr v) ∧
      (∀ l ∈ st'.outLines, l ≠ [] ∧ ∀ v ∈ l, GoodStr v) := by
  intro lines
  induction lines with
  | nil =>
    intro i st st' h1 h2 h3 h4 h
    rw [create_dataset_from_nil] at h
    simp at h
    subst h
    exact ⟨h1, h2, h3, h4⟩
  | cons line rest ih =>
    intro i st st' h1 h2 h3 h4 h
    cases hsr : stopReached cfg st.nb with
    | true =>
      rw [create_dataset_from_cons_stop hsr] at h
      simp at h
      subst h
      exact ⟨h1, h2, h3, h4⟩
    | false =>
      rw [create_dataset_from_cons_go hsr] at h
      split at h
      · exact absurd h (by simp)
      · next st1 hp =>
        obtain ⟨values, stM, hrv, hd, hc, hpart, hfl⟩ := processLine_ok_elim hp
        have hCpos : 0 < columns.length := Nat.pos_of_ne_zero hc
        -- the intermediate state satisfies the invariant with the same
        -- counter, output lines, and file
        have hM : stM.nb = st.nb ∧ stM.outLines = st.outLines ∧
            stM.file = st.file ∧ (∀ v ∈ stM.buf, GoodStr v) := by
          rcases participate_ok_elim hpart with ⟨_, hMe⟩ | ⟨_, vs, hbr, hMe⟩
          · rw [hMe]
            exact ⟨rfl, rfl, rfl, h3⟩
          · rw [hMe]
            refine ⟨rfl, rfl, rfl, ?_⟩
            intro v hv
            rcases List.mem_append.mp hv with hv | hv
            · exact h3 v hv
            · exact buildRow_good hconv hbr v hv
        rcases hfl with ⟨hne, hst⟩ | ⟨heq, hst⟩
        · rw [hst] at h
          exact ih (i + 1) stM st' (by rw [hM.1, hM.2.1]; exact h1)
            (by rw [hM.2.1, hM.2.2.1]; exact h2) hM.2.2.2
            (by rw [hM.2.1]; exact h4) h
        · rw [hst] at h
          refine ih (i + 1) (flushState stM) st' ?_ ?_ ?_ ?_ h
          · simp [flushState, hM.1, hM.2.1, h1]
          · simp only [flushState, List.map_append, List.map_cons, List.map_nil]
            rw [pyJoin_append_one]
            rw [hM.2.2.1, h2, hM.1, h1, hM.2.1]
            cases houts : st.outLines with
            | nil =>
              simp [houts, pyJoin, string_empty_append]
            | cons o os =>
              simp [houts, pyJoin]
              rw [String.append_assoc]
          · simp [flushState]
          · intro l hl
            simp only [flushState, List.mem_append, List.mem_singleton] at hl
            rcases hl with hl | hl
            · exact h4 l (hM.2.1 ▸ hl)
            · subst hl
              constructor
              · intro hnil
                rw [hnil] at heq
                simp only [List.length_nil] at heq
                have hpos := Nat.mul_pos hB hCpos
                omega
              · exact hM.2.2.2

/-- C7's core: the column loop errors out with the short-line message at the
first requested index that is out of range, provided the columns before it
pass both the range check and the float conversion. -/
theorem buildRow_shortLine (cfg : Config) (conv : String → Option String) (i : Nat)
    (values : List String) :
    ∀ (pre : List Int) (idx : Int) (post : List Int),
      (∀ j ∈ pre, ∃ v s, ¬((values.length : Int) ≤ j) ∧ pyGet values j = some v ∧
          convert_to_float cfg conv v i = .ok s) →
      (values.length : Int) ≤ idx →
      buildRow cfg conv i values (pre ++ idx :: post) =
        .error (.shortLine i (idx + 1) values) := by
  intro pre
  induction pre with
  | nil =>
    intro idx post _ hidx
    simp only [List.nil_append]
    unfold buildRow
    rw [if_pos hidx]
  | cons j js ih =>
    intro idx post hpre hidx
    obtain ⟨v, s, hjlt, hget, hcv⟩ := hpre j (by simp)
    have hrec := ih idx post (fun x hx => hpre x (List.mem_cons_of_mem j hx)) hidx
    simp only [List.cons_append]
    unfold buildRow
    rw [if_neg hjlt]
    simp only [hget, hcv, hrec]

theorem pyFindIdx_some_spec :
    ∀ (hs : List String) (sel : Selector) (n : Nat),
      pyFindIdx hs sel = some n →
      ∃ x, hs.get? n = some x ∧ selectorMatches sel x = true ∧
        ∀ m, m < n → ∀ y, hs.get? m = some y → selectorMatches sel y = false := by
  intro hs
  induction hs with
  | nil => intro sel n h; simp [pyFindIdx] at h
  | cons a t ih =>
    intro sel n h
    unfold pyFindIdx at h
    by_cases hm : selectorMatches sel a = true
    · rw [if_pos hm] at h
      simp at h
      subst h
      exact ⟨a, rfl, hm, fun m hm' => absurd hm' (Nat.not_lt_zero m)⟩
    · rw [if_neg hm] at h
      have hm' : selectorMatches sel a = false := by
        simpa using hm
      cases hf : pyFindIdx t sel with
      | none => rw [hf] at h; simp at h
      | some k =>
        rw [hf] at h
        simp at h
        obtain ⟨x, hx, hxm, hmin⟩ := ih sel k hf
        subst h
        refine ⟨x, by simp only [List.get?_cons_succ]; exact hx, hxm, ?_⟩
        intro m hmlt y hy
        cases m with
        | zero =>
          simp only [List.get?_cons_zero, Option.some.injEq] at hy
          subst hy
          exact hm'
        | succ m' =>
          simp only [List.get?_cons_succ] at hy
          exact hmin m' (by omega) y hy

theorem pyFindIdx_label_mem :
    ∀ (hs : List String) (l : String), l ∈ hs →
      ∃ n, pyFindIdx hs (.label l) = some n := by
  intro hs
  induction hs with
  | nil => intro l h; simp at h
  | cons a t ih =>
    intro l h
    by_cases hla : selectorMatches (.label l) a = true
    · exact ⟨0, by unfold pyFindIdx; rw [if_pos hla]⟩
    · have hal : a ≠ l := by
        simpa [selectorMatches, eq_comm] using hla
      have hlt : l ∈ t := by
        rcases List.mem_cons.mp h with h1 | h1
        · exact absurd h1.symm hal
        · exact h1
      obtain ⟨k, hk⟩ := ih l hlt
      exact ⟨k + 1, by unfold pyFindIdx; rw [if_neg hla, hk]; rfl⟩

theorem resolveLabels_ok_spec (hs : List String) :
    ∀ sels : List Selector,
      (∀ s ∈ sels, ∃ n, pyFindIdx hs s = some n) →
      ∃ ids, resolveLabels hs sels = .ok ids ∧
        List.Forall₂ (fun s (i : Int) => ∃ n, pyFindIdx hs s = some n ∧ i = (n : Int))
          sels ids := by
  intro sels
  induction sels with
  | nil => exact fun _ => ⟨[], rfl, List.Forall₂.nil⟩
  | cons s rest ih =>
    intro hall
    obtain ⟨n, hn⟩ := hall s (by simp)
    obtain ⟨t, ht, hf⟩ := ih (fun x hx => hall x (List.mem_cons_of_mem s hx))
    refine ⟨(n : Int) :: t, ?_, List.Forall₂.cons ⟨n, hn, rfl⟩ hf⟩
    unfold resolveLabels
    simp only [hn, ht]

theorem resolveLabels_err_spec (hs : List String) :
    ∀ (pre : List Selector) (sel : Selector) (post : List Selector),
      (∀ s ∈ pre, ∃ n, pyFindIdx hs s = some n) →
      pyFindIdx hs sel = none →
      resolveLabels hs (pre ++ sel :: post) = .error (.labelNotFound sel) := by
  intro pre
  induction pre with
  | nil =>
    intro sel post _ hsel
    simp only [List.nil_append]
    unfold resolveLabels
    simp only [hsel]
  | cons s rest ih =>
    intro sel post hpre hsel
    obtain ⟨n, hn⟩ := hpre s (by simp)
    have hrec := ih sel post (fun x hx => hpre x (List.mem_cons_of_mem s hx)) hsel
    simp only [List.cons_append]
    unfold resolveLabels
    simp only [hn, hrec]

/-- What the spec means by a label selector resolving by exact match: the
selector is a label, and the resolved index is the position of the first
header field equal to it. -/
def ResolvesTo (hs : List String) (s : Selector) (i : Int) : Prop :=
  ∃ (l : String) (n : Nat), s = .label l ∧ i = (n : Int) ∧ hs.get? n = some l ∧
    ∀ m : Nat, m < n → hs.get? m ≠ some l

theorem pyFindIdx_resolvesTo {hs : List String} {l : String} {n : Nat}
    (h : pyFindIdx hs (.label l) = some n) : ResolvesTo hs (.label l) n := by
  obtain ⟨x, hx, hxm, hmin⟩ := pyFindIdx_some_spec hs (.label l) n h
  have hxl : x = l := by simpa [selectorMatches] using hxm
  refine ⟨l, n, rfl, rfl, hxl ▸ hx, ?_⟩
  intro m hm hy
  have := hmin m hm l hy
  simp [selectorMatches] at this

theorem pyGet_neg_one (values : List String) :
    pyGet values (-1) = values.getLast? := by
  cases values with
  | nil => rfl
  | cons a t =>
    unfold pyGet
    rw [if_neg (by omega)]
    rw [if_pos (show (0 : Int) ≤ -1 + ((a :: t).length : Int) by
      simp only [List.length_cons]
      push_cast
      omega)]
    have harg : ((-1 : Int) + ((a :: t).length : Int)).toNat = t.length := by
      simp only [List.length_cons]
      push_cast
      omega
    rw [harg, List.getLast?_eq_getElem?, ← List.get?_eq_getElem?]
    simp

/-! ## Claim theorems -/

/-- The configuration of C1's spec example: comma value delimiter, dot decimal
delimiter, no headers, `BUFFER_SIZE = 3`, no downsampling, no row limit. -/
def cfgC1 : Config := ⟨",", ".", false, 3, 1, none⟩

/-- C1, counterexample: with 2 selected columns (selectors 1 and 2) and buffer
size 3, column A values 1.1, 1.2, 1.3 and column B values 5.1, 5.2, 5.3
accumulated over 3 rows, the emitted line is the row-interleaved
"1.1,5.1,1.2,5.2,1.3,5.3", not the column-major "1.1,1.2,1.3,5.1,5.2,5.3"
the claim requires. -/
theorem c1_counterexample :
    run cfgC1 simpleFloat [Selector.col 1, Selector.col 2]
        ["1.1,5.1", "1.2,5.2", "1.3,5.3"] =
      .ok ⟨1, [], [["1.1", "5.1", "1.2", "5.2", "1.3", "5.3"]],
        "1.1,5.1,1.2,5.2,1.3,5.3", ["1.1", "5.1", "1.2", "5.2", "1.3", "5.3"]⟩ ∧
    ("1.1,5.1,1.2,5.2,1.3,5.3" : String) ≠ "1.1,1.2,1.3,5.1,5.2,5.3" :=
  ⟨rfl, by decide⟩

/-- The amended C1 specification of serialization order, in the spec's words:
the stream of per-row contribution blocks — for each line in order (skipping
non-participating ones), the block of that row's selected-column values in
selector order, exactly as the inner column loop visits them. -/
def rowBlocks (cfg : Config) (conv : String → Option String) (columns : List Int) :
    List String → Nat → Except Err (List (List String))
  | [], _ => .ok []
  | line :: rest, i =>
    match read_values_of_line cfg line with
    | .error e => .error e
    | .ok values =>
      if i % cfg.downsample = 0 then
        match buildRow cfg conv i values columns with
        | .error e => .error e
        | .ok vs =>
          match rowBlocks cfg conv columns rest (i + 1) with
          | .error e => .error e
          | .ok bs => .ok (vs :: bs)
      else rowBlocks cfg conv columns rest (i + 1)

theorem rowBlocks_cons_nonpart {cfg : Config} {conv : String → Option String}
    {columns : List Int} {line : String} {c : List String} {i : Nat}
    {values : List String}
    (hrv : read_values_of_line cfg line = .ok values)
    (hnp : i % cfg.downsample ≠ 0) :
    rowBlocks cfg conv columns (line :: c) i = rowBlocks cfg conv columns c (i + 1) := by
  have heq : rowBlocks cfg conv columns (line :: c) i =
      match read_values_of_line cfg line with
      | .error e => .error e
      | .ok values =>
        if i % cfg.downsample = 0 then
          match buildRow cfg conv i values columns with
          | .error e => .error e
          | .ok vs =>
            match rowBlocks cfg conv columns c (i + 1) with
            | .error e => .error e
            | .ok bs => .ok (vs :: bs)
        else rowBlocks cfg conv columns c (i + 1) := rfl
  rw [heq]
  simp only [hrv]
  rw [if_neg hnp]

theorem rowBlocks_cons_part {cfg : Config} {conv : String → Option String}
    {columns : List Int} {line : String} {c : List String} {i : Nat}
    {values vs : List String} {bs : List (List String)}
    (hrv : read_values_of_line cfg line = .ok values)
    (hpp : i % cfg.downsample = 0)
    (hbr : buildRow cfg conv i values columns = .ok vs)
    (hbs : rowBlocks cfg conv columns c (i + 1) = .ok bs) :
    rowBlocks cfg conv columns (line :: c) i = .ok (vs :: bs) := by
  have heq : rowBlocks cfg conv columns (line :: c) i =
      match read_values_of_line cfg line with
      | .error e => .error e
      | .ok values =>
        if i % cfg.downsample = 0 then
          match buildRow cfg conv i values columns with
          | .error e => .error e
          | .ok vs =>
            match rowBlocks cfg conv columns c (i + 1) with
            | .error e => .error e
            | .ok bs => .ok (vs :: bs)
        else rowBlocks cfg conv columns c (i + 1) := rfl
  rw [heq]
  simp only [hrv]
  rw [if_pos hpp]
  simp only [hbr, hbs]

theorem flatten_length_blocks {C : Nat} :
    ∀ {pb : List (List String)}, (∀ b ∈ pb, b.length = C) →
      pb.flatten.length = pb.length * C := by
  intro pb
  induction pb with
  | nil =>
    intro _
    simp
  | cons b t ih =>
    intro h
    simp only [List.flatten_cons, List.length_append, List.length_cons]
    rw [h b (by simp), ih (fun x hx => h x (List.mem_cons_of_mem b hx))]
    ring

/-- C1's inductive core: from a state whose buffer holds the blocks `pb` of
an in-progress window, a successful run consumes a prefix of the lines, turns
its participating rows into the block stream `bs` (via `rowBlocks`), and
emits exactly the windows of `BUFFER_SIZE` consecutive blocks of `pb ++ bs`,
each written as the concatenation of its blocks, leaving the trailing partial
window in the buffer. -/
theorem loop_blocks (cfg : Config) (conv : String → Option String)
    (columns : List Int) (hB : 0 < cfg.bufferSize) :
    ∀ (lines : List String) (i : Nat) (st st' : DState) (pb : List (List String)),
      st.buf = pb.flatten →
      (∀ b ∈ pb, b.length = columns.length) →
      pb.length < cfg.bufferSize →
      create_dataset_from cfg conv columns lines i st = .ok st' →
      ∃ (consumed remaining : List String) (bs : List (List String))
        (ws : List (List (List String))) (pb' : List (List String)),
        lines = consumed ++ remaining ∧
        rowBlocks cfg conv columns consumed i = .ok bs ∧
        (∀ b ∈ bs, b.length = columns.length) ∧
        st'.outLines = st.outLines ++ ws.map List.flatten ∧
        (∀ w ∈ ws, w.length = cfg.bufferSize) ∧
        pb ++ bs = ws.flatten ++ pb' ∧
        st'.buf = pb'.flatten ∧
        (∀ b ∈ pb', b.length = columns.length) ∧
        pb'.length < cfg.bufferSize := by
  intro lines
  induction lines with
  | nil =>
    intro i st st' pb hpbuf hpbl hplt h
    rw [create_dataset_from_nil] at h
    simp at h
    subst h
    exact ⟨[], [], [], [], pb, by simp, rfl, by simp, by simp, by simp,
      by simp, hpbuf, hpbl, hplt⟩
  | cons line rest ih =>
    intro i st st' pb hpbuf hpbl hplt h
    cases hsr : stopReached cfg st.nb with
    | true =>
      rw [create_dataset_from_cons_stop hsr] at h
      simp at h
      subst h
      exact ⟨[], line :: rest, [], [], pb, by simp, rfl, by simp, by simp,
        by simp, by simp, hpbuf, hpbl, hplt⟩
    | false =>
      rw [create_dataset_from_cons_go hsr] at h
      split at h
      · exact absurd h (by simp)
      · next st1 hp =>
        obtain ⟨values, stM, hrv, hd, hc, hpart, hfl⟩ := processLine_ok_elim hp
        have hCpos : 0 < columns.length := Nat.pos_of_ne_zero hc
        rcases participate_ok_elim hpart with ⟨hnp, hMe⟩ | ⟨hpp, vs, hbr, hMe⟩
        · -- non-participating line: no block, state unchanged by the pass
          rcases hfl with ⟨hne, hst⟩ | ⟨heq, hst⟩
          · rw [hst, hMe] at h
            obtain ⟨consumed, remaining, bs, ws, pb', hsplit, hbs, hbl, hout,
              hwin, heqn, hbuf, hpbl', hplt'⟩ := ih (i + 1) st st' pb hpbuf hpbl hplt h
            exact ⟨line :: consumed, remaining, bs, ws, pb',
              by rw [hsplit]; rfl,
              (rowBlocks_cons_nonpart hrv hnp).trans hbs,
              hbl, hout, hwin, heqn, hbuf, hpbl', hplt'⟩
          · exfalso
            rw [hMe, hpbuf, flatten_length_blocks hpbl] at heq
            have : pb.length = cfg.bufferSize := by
              rw [Nat.mul_comm pb.length columns.length,
                Nat.mul_comm cfg.bufferSize columns.length] at heq
              exact Nat.eq_of_mul_eq_mul_left hCpos heq
            omega
        · -- participating line: one more block vs
          have hvs : vs.length = columns.length :=
            buildRow_length cfg conv i values columns vs hbr
          have hpbvs : ∀ b ∈ pb ++ [vs], b.length = columns.length := by
            intro b hb
            rcases List.mem_append.mp hb with hb | hb
            · exact hpbl b hb
            · simp only [List.mem_singleton] at hb
              subst hb
              exact hvs
          have hMbuf : stM.buf = (pb ++ [vs]).flatten := by
            rw [hMe]
            simp [hpbuf, List.flatten_append]
          have hMlen : stM.buf.length = (pb.length + 1) * columns.length := by
            rw [hMbuf, flatten_length_blocks hpbvs]
            simp
          have hMout : stM.outLines = st.outLines := by rw [hMe]
          by_cases hful : pb.length + 1 = cfg.bufferSize
          · -- the window is complete: the flush fires
            rcases hfl with ⟨hne, hst⟩ | ⟨heq, hst⟩
            · exfalso
              apply hne
              rw [hMlen, hful]
            · rw [hst] at h
              obtain ⟨consumed, remaining, bs', ws', pb', hsplit, hbs, hbl, hout,
                hwin, heqn, hbuf, hpbl', hplt'⟩ :=
                ih (i + 1) (flushState stM) st' [] rfl (by simp) hB h
              have hfOut : (flushState stM).outLines =
                  st.outLines ++ [(pb ++ [vs]).flatten] := by
                show stM.outLines ++ [stM.buf] = _
                rw [hMbuf, hMout]
              have hbseq : bs' = ws'.flatten ++ pb' := by simpa using heqn
              refine ⟨line :: consumed, remaining, vs :: bs', (pb ++ [vs]) :: ws', pb',
                by rw [hsplit]; rfl,
                rowBlocks_cons_part hrv hpp hbr hbs,
                ?_, ?_, ?_, ?_, hbuf, hpbl', hplt'⟩
              · intro b hb
                rcases List.mem_cons.mp hb with hb | hb
                · subst hb
                  exact hvs
                · exact hbl b hb
              · rw [hout, hfOut]
                simp [List.append_assoc]
              · intro w hw
                rcases List.mem_cons.mp hw with hw | hw
                · subst hw
                  simp [hful]
                · exact hwin w hw
              · rw [List.flatten_cons, hbseq]
                simp [List.append_assoc]
          · -- window not yet complete: no flush
            have hplt2 : (pb ++ [vs]).length < cfg.bufferSize := by
              simp only [List.length_append, List.length_cons, List.length_nil]
              omega
            rcases hfl with ⟨hne, hst⟩ | ⟨heq, hst⟩
            · rw [hst] at h
              obtain ⟨consumed, remaining, bs', ws', pb', hsplit, hbs, hbl, hout,
                hwin, heqn, hbuf, hpbl', hplt'⟩ :=
                ih (i + 1) stM st' (pb ++ [vs]) hMbuf hpbvs hplt2 h
              refine ⟨line :: consumed, remaining, vs :: bs', ws', pb',
                by rw [hsplit]; rfl,
                rowBlocks_cons_part hrv hpp hbr hbs,
                ?_, ?_, hwin, ?_, hbuf, hpbl', hplt'⟩
              · intro b hb
                rcases List.mem_cons.mp hb with hb | hb
                · subst hb
                  exact hvs
                · exact hbl b hb
              · rw [hout, hMout]
              · rw [← heqn]
                simp [List.append_assoc]
            · exfalso
              rw [hMlen] at heq
              have : pb.length + 1 = cfg.bufferSize := by
                rw [Nat.mul_comm (pb.length + 1) columns.length,
                  Nat.mul_comm cfg.bufferSize columns.length] at heq
                exact Nat.eq_of_mul_eq_mul_left hCpos heq
              exact hful this

/-- C1, amended: for every successful run, each emitted output row is
serialized row-major (interleaved): the participating rows yield, in stream
order, one block each of their selected-column values in selector order
(`rowBlocks`, the inner column loop's visit order), and the emitted rows are
exactly the consecutive `BUFFER_SIZE`-block windows of that stream, each row
written as the concatenation of its window's blocks, with the trailing
partial window left in the buffer. -/
theorem c1_amended (cfg : Config) (conv : String → Option String)
    (columns : List Int) (lines : List String) (st' : DState)
    (hB : 0 < cfg.bufferSize)
    (h : create_dataset cfg conv columns lines = .ok st') :
    ∃ (consumed remaining : List String) (bs : List (List String))
      (ws : List (List (List String))) (pb : List (List String)),
      lines = consumed ++ remaining ∧
      rowBlocks cfg conv columns consumed (startIndex cfg) = .ok bs ∧
      (∀ b ∈ bs, b.length = columns.length) ∧
      st'.outLines = ws.map List.flatten ∧
      (∀ w ∈ ws, w.length = cfg.bufferSize) ∧
      bs = ws.flatten ++ pb ∧
      st'.buf = pb.flatten := by
  obtain ⟨consumed, remaining, bs, ws, pb, hsplit, hbs, hbl, hout, hwin, heqn,
    hbuf, _, _⟩ := loop_blocks cfg conv columns hB lines (startIndex cfg)
      initState st' [] rfl (by simp) hB h
  exact ⟨consumed, remaining, bs, ws, pb, hsplit, hbs, hbl,
    by simpa [initState] using hout, hwin, by simpa using heqn, hbuf⟩

/-- C1, witness for the amended theorem at the counterexample's 2-column,
buffer-3 run: one emitted row, three blocks of two values each. -/
theorem c1_witness :
    ∃ (consumed remaining : List String) (bs : List (List String))
      (ws : List (List (List String))) (pb : List (List String)),
      (["1.1,5.1", "1.2,5.2", "1.3,5.3"] : List String) = consumed ++ remaining ∧
      rowBlocks cfgC1 simpleFloat [0, 1] consumed (startIndex cfgC1) = .ok bs ∧
      (∀ b ∈ bs, b.length = ([0, 1] : List Int).length) ∧
      (DState.mk 1 [] [["1.1", "5.1", "1.2", "5.2", "1.3", "5.3"]]
        "1.1,5.1,1.2,5.2,1.3,5.3"
        ["1.1", "5.1", "1.2", "5.2", "1.3", "5.3"]).outLines = ws.map List.flatten ∧
      (∀ w ∈ ws, w.length = cfgC1.bufferSize) ∧
      bs = ws.flatten ++ pb ∧
      (DState.mk 1 [] [["1.1", "5.1", "1.2", "5.2", "1.3", "5.3"]]
        "1.1,5.1,1.2,5.2,1.3,5.3"
        ["1.1", "5.1", "1.2", "5.2", "1.3", "5.3"]).buf = pb.flatten :=
  c1_amended cfgC1 simpleFloat [0, 1] ["1.1,5.1", "1.2,5.2", "1.3,5.3"]
    (DState.mk 1 [] [["1.1", "5.1", "1.2", "5.2", "1.3", "5.3"]]
      "1.1,5.1,1.2,5.2,1.3,5.3"
      ["1.1", "5.1", "1.2", "5.2", "1.3", "5.3"])
    (by decide) rfl

/-- C2: throughout any run (from any state satisfying it, in particular the
initial one), the buffer length stays a multiple of the selected-column count
and strictly below `BUFFER_SIZE * columns` between flushes — the flush fires
exactly at the threshold, in the same pass — and every flushed output row has
exactly `BUFFER_SIZE * columns` values. -/
theorem c2_buffer_invariant (cfg : Config) (conv : String → Option String)
    (columns : List Int) (lines : List String) (i : Nat) (st st' : DState)
    (_hC : columns ≠ []) (hB : 0 < cfg.bufferSize)
    (hmod : st.buf.length % columns.length = 0)
    (hlt : st.buf.length < cfg.bufferSize * columns.length)
    (hout : ∀ l ∈ st.outLines, l.length = cfg.bufferSize * columns.length)
    (h : create_dataset_from cfg conv columns lines i st = .ok st') :
    st'.buf.length % columns.length = 0 ∧
    st'.buf.length < cfg.bufferSize * columns.length ∧
    ∀ l ∈ st'.outLines, l.length = cfg.bufferSize * columns.length :=
  loop_buf_inv cfg conv columns hB lines i st st' hmod hlt hout h

/-- Configuration for C2's witness run: one selected column, buffer size 2. -/
def cfgC2 : Config := ⟨",", ".", false, 2, 1, none⟩

/-- C2, witness: a concrete three-line run flushing one row of 2 values and
leaving one value in the buffer. -/
theorem c2_witness :
    (DState.mk 1 ["3.0"] [["1.0", "2.0"]] "1.0,2.0"
        ["1.0", "2.0", "3.0"]).buf.length % ([(0 : Int)]).length = 0 ∧
    (DState.mk 1 ["3.0"] [["1.0", "2.0"]] "1.0,2.0"
        ["1.0", "2.0", "3.0"]).buf.length < cfgC2.bufferSize * ([(0 : Int)]).length ∧
    ∀ l ∈ (DState.mk 1 ["3.0"] [["1.0", "2.0"]] "1.0,2.0"
        ["1.0", "2.0", "3.0"]).outLines,
      l.length = cfgC2.bufferSize * ([(0 : Int)]).length :=
  c2_buffer_invariant cfgC2 simpleFloat [0] ["1.0", "2.0", "3.0"] 1 initState
    (DState.mk 1 ["3.0"] [["1.0", "2.0"]] "1.0,2.0" ["1.0", "2.0", "3.0"])
    (by decide) (by decide) (by decide) (by decide) (by simp [initState]) rfl

/-- C3: the number of emitted rows is `min(L, complete windows in the
stream)` for an integer row limit `L` (as a natural number via `toNat`; for
the configured positive limits this is `L` itself), all complete windows for
the unbounded setting, and a state that has reached the limit stops the
iteration immediately, returning the state unchanged. -/
theorem c3_row_limit (cfg : Config) (conv : String → Option String)
    (columns : List Int) (lines : List String) (st' : DState)
    (hB : 0 < cfg.bufferSize)
    (h : create_dataset cfg conv columns lines = .ok st') :
    (cfg.linesToBuild = none →
      st'.nb = participCount cfg.downsample (startIndex cfg) lines.length /
        cfg.bufferSize) ∧
    (∀ L : Int, cfg.linesToBuild = some L →
      st'.nb = min L.toNat
        (participCount cfg.downsample (startIndex cfg) lines.length /
          cfg.bufferSize)) ∧
    (∀ (lines₂ : List String) (i : Nat) (st : DState),
      stopReached cfg st.nb = true →
      create_dataset_from cfg conv columns lines₂ i st = .ok st) := by
  refine ⟨?_, ?_, ?_⟩
  · intro hL
    have hcnt := loop_count_none cfg conv columns hL hB lines (startIndex cfg) 0
      initState st' (by simp [initState]) hB h
    simpa [initState] using hcnt.1
  · intro L hL
    have hcnt := loop_count_some cfg conv columns L hL hB lines (startIndex cfg) 0
      initState st' (by simp [initState]) hB (by simp [initState]) h
    simpa [initState] using hcnt
  · intro lines₂ i st hstop
    cases lines₂ with
    | nil => exact create_dataset_from_nil cfg conv columns i st
    | cons l rest => exact create_dataset_from_cons_stop hstop

/-- Configuration for C3's witness run: row limit 2, buffer size 1. -/
def cfgC3 : Config := ⟨",", ".", false, 1, 1, some 2⟩

/-- C3, witness: five available windows, limit 2, exactly 2 rows emitted. -/
theorem c3_witness :
    (DState.mk 2 [] [["1.0"], ["2.0"]] "1.0\n2.0" ["1.0", "2.0"]).nb =
      min (Int.toNat 2)
        (participCount cfgC3.downsample (startIndex cfgC3)
          (["1.0", "2.0", "3.0", "4.0", "5.0"] : List String).length /
          cfgC3.bufferSize) :=
  (c3_row_limit cfgC3 simpleFloat [0] ["1.0", "2.0", "3.0", "4.0", "5.0"]
    (DState.mk 2 [] [["1.0"], ["2.0"]] "1.0\n2.0" ["1.0", "2.0"])
    (by decide) rfl).2.1 2 rfl

/-- Configurations for C4's concrete runs: downsample factor 2, buffer size 1,
without and with headers. -/
def cfgC4 : Config := ⟨",", ".", false, 1, 2, none⟩

def cfgC4h : Config := ⟨",", ".", true, 1, 2, none⟩

/-- C4: a line contributes values to the buffer exactly when its 1-based line
index is divisible by the downsample factor; and concretely, with factor 2
over 4 data lines and no header (indexing from 1) only lines 2 and 4
contribute, while with a consumed header (indexing from 2) the first and
third data lines contribute. -/
theorem c4_downsampling :
    (∀ (cfg : Config) (conv : String → Option String) (columns : List Int)
       (i : Nat) (line : String) (st st' : DState),
      processLine cfg conv columns i line st = .ok st' →
      ((i % cfg.downsample ≠ 0 → st'.appended = st.appended) ∧
       (i % cfg.downsample = 0 → ∃ values vs,
         read_values_of_line cfg line = .ok values ∧
         buildRow cfg conv i values columns = .ok vs ∧
         st'.appended = st.appended ++ vs))) ∧
    create_dataset cfgC4 simpleFloat [0] ["1.0", "2.0", "3.0", "4.0"] =
      .ok ⟨2, [], [["2.0"], ["4.0"]], "2.0\n4.0", ["2.0", "4.0"]⟩ ∧
    create_dataset cfgC4h simpleFloat [0] ["1.0", "2.0", "3.0"] =
      .ok ⟨2, [], [["1.0"], ["3.0"]], "1.0\n3.0", ["1.0", "3.0"]⟩ := by
  refine ⟨?_, rfl, rfl⟩
  intro cfg conv columns i line st st' h
  obtain ⟨values, st1, hr, hd, hc, hpart, hfl⟩ := processLine_ok_elim h
  constructor
  · intro hnp
    rcases participate_ok_elim hpart with ⟨_, hMe⟩ | ⟨hpp, _, _, _⟩
    · rcases hfl with ⟨_, hst⟩ | ⟨_, hst⟩
      · rw [hst, hMe]
      · rw [hst, hMe]
        simp [flushState]
    · exact absurd hpp hnp
  · intro hpp
    rcases participate_ok_elim hpart with ⟨hnp, _⟩ | ⟨_, vs, hb, hMe⟩
    · exact absurd hpp hnp
    · refine ⟨values, vs, hr, hb, ?_⟩
      rcases hfl with ⟨_, hst⟩ | ⟨_, hst⟩
      · rw [hst, hMe]
      · rw [hst, hMe]
        simp [flushState]

/-- C4, witness for the general conjunct: line index 2 with factor 2
participates and appends its converted value. -/
theorem c4_witness :
    ∃ values vs, read_values_of_line cfgC4 "9.0" = .ok values ∧
      buildRow cfgC4 simpleFloat 2 values [0] = .ok vs ∧
      (DState.mk 1 [] [["9.0"]] "9.0" ["9.0"]).appended =
        initState.appended ++ vs :=
  (c4_downsampling.1 cfgC4 simpleFloat [0] 2 "9.0" initState
    (DState.mk 1 [] [["9.0"]] "9.0" ["9.0"]) rfl).2 (by decide)

theorem simpleFloat_convGood : ConvGood simpleFloat := by
  intro s t h
  unfold simpleFloat at h
  split at h
  · next a b heq =>
    split at h
    · next hab =>
      simp only [Option.some.injEq] at h
      subst h
      constructor
      · rw [heq]
        simp
      · rw [heq]
        intro hmem
        simp only [List.mem_cons, List.not_mem_nil, or_false] at hmem
        rcases hmem with h1 | h1 | h1
        · rw [← h1] at hab
          exact absurd hab.1 (by decide)
        · exact absurd h1 (by decide)
        · rw [← h1] at hab
          exact absurd hab.2 (by decide)
    · exact absurd h (by simp)
  · exact absurd h (by simp)

/-- C5: the output file is byte for byte the newline-join of the emitted
lines (no newline before the first line, a single newline before each
subsequent one), each line being the comma-join of a flushed buffer; hence,
since float renderings are non-empty and newline-free, the file has no
trailing newline. -/
theorem c5_output_format (cfg : Config) (conv : String → Option String)
    (columns : List Int) (lines : List String) (st' : DState)
    (hB : 0 < cfg.bufferSize) (hconv : ConvGood conv)
    (h : create_dataset cfg conv columns lines = .ok st') :
    st'.file = pyJoin "\n" (st'.outLines.map (pyJoin ",")) ∧
    st'.nb = st'.outLines.length ∧
    (st'.file.data ≠ [] → st'.file.data.getLast? ≠ some '\n') := by
  have hinv := loop_file_inv cfg conv columns hB hconv lines (startIndex cfg)
    initState st' (by simp [initState]) (by simp [initState, pyJoin])
    (by simp [initState]) (by simp [initState]) h
  refine ⟨hinv.2.1, hinv.1, ?_⟩
  intro hne
  cases houts : st'.outLines with
  | nil =>
    rw [hinv.2.1, houts] at hne
    simp [pyJoin] at hne
  | cons o os =>
    have hgood : ∀ s ∈ st'.outLines.map (pyJoin ","), GoodStr s := by
      intro s hs
      obtain ⟨l, hl, rfl⟩ := List.mem_map.mp hs
      exact pyJoin_comma_good (hinv.2.2.2 l hl).1 (hinv.2.2.2 l hl).2
    have hlast := pyJoin_newline_getLast hgood (by rw [houts]; simp)
    rw [hinv.2.1]
    exact hlast.2

/-- Configuration for C5's witness run. -/
def cfgC5 : Config := ⟨",", ".", false, 1, 1, none⟩

/-- C5, witness: a concrete two-row run whose file is "1.0\n2.0". -/
theorem c5_witness :
    (DState.mk 2 [] [["1.0"], ["2.0"]] "1.0\n2.0" ["1.0", "2.0"]).file =
      pyJoin "\n" ((DState.mk 2 [] [["1.0"], ["2.0"]] "1.0\n2.0"
        ["1.0", "2.0"]).outLines.map (pyJoin ",")) ∧
    (DState.mk 2 [] [["1.0"], ["2.0"]] "1.0\n2.0" ["1.0", "2.0"]).nb =
      (DState.mk 2 [] [["1.0"], ["2.0"]] "1.0\n2.0" ["1.0", "2.0"]).outLines.length ∧
    ((DState.mk 2 [] [["1.0"], ["2.0"]] "1.0\n2.0" ["1.0", "2.0"]).file.data ≠ [] →
      (DState.mk 2 [] [["1.0"], ["2.0"]] "1.0\n2.0"
        ["1.0", "2.0"]).file.data.getLast? ≠ some '\n') :=
  c5_output_format cfgC5 simpleFloat [0] ["1.0", "2.0"]
    (DState.mk 2 [] [["1.0"], ["2.0"]] "1.0\n2.0" ["1.0", "2.0"])
    (by decide) simpleFloat_convGood rfl

/-- Configuration with colliding delimiters and no headers. -/
def cfgC6 : Config := ⟨",", ",", false, 1, 1, none⟩

/-- C6, counterexample: with equal value and decimal delimiters, headers
declared absent and an empty input stream, no line is ever read, so the run
completes successfully (zero rows) instead of failing — the collision is only
detected on a line read, which never happens here. -/
theorem c6_counterexample :
    cfgC6.valueDelim = cfgC6.decimalDelim ∧
    run cfgC6 simpleFloat [Selector.col 1] [] = .ok initState :=
  ⟨rfl, rfl⟩

/-- C6, amended: if the value delimiter equals the decimal delimiter, the run
fails with the delimiter-collision ConfigurationError as soon as a line is
read — unconditionally when headers are declared present (the header read
happens even on an empty stream), and, when headers are declared absent,
provided the stream is non-empty, column resolution succeeds, and the row
limit does not stop the loop before its first line.  The error is raised
before any field of any line is parsed. -/
theorem c6_amended (cfg : Config) (conv : String → Option String)
    (selectors : List Selector) (inputLines : List String)
    (heq : cfg.valueDelim = cfg.decimalDelim) :
    (cfg.hasHeaders = true → run cfg conv selectors inputLines = .error .delimEqual) ∧
    (∀ cols, cfg.hasHeaders = false → inputLines ≠ [] →
      get_columns_indexes_to_keep cfg none selectors = .ok cols →
      stopReached cfg 0 = false →
      run cfg conv selectors inputLines = .error .delimEqual) := by
  have hread : ∀ line, read_values_of_line cfg line = .error .delimEqual := by
    intro line
    unfold read_values_of_line
    rw [if_pos heq]
  constructor
  · intro hh
    unfold run get_headers
    rw [hh]
    simp [hread]
  · intro cols hh hne hcols hstop
    cases inputLines with
    | nil => exact absurd rfl hne
    | cons l rest =>
      have hgh : get_headers cfg (l :: rest) = .ok (none, l :: rest) := by
        unfold get_headers
        rw [hh]
        simp
      unfold run
      simp only [hgh, hcols]
      unfold create_dataset
      rw [create_dataset_from_cons_go (by simpa [initState] using hstop)]
      unfold processLine
      simp only [hread]

/-- Configuration with colliding delimiters and headers present. -/
def cfgC6h : Config := ⟨",", ",", true, 1, 1, none⟩

/-- C6, witness for the amended theorem: headers present, equal delimiters,
the run fails with the collision error on the header read. -/
theorem c6_witness :
    run cfgC6h simpleFloat [Selector.col 1] ["1,0"] = .error .delimEqual :=
  (c6_amended cfgC6h simpleFloat [Selector.col 1] ["1,0"] rfl).1 rfl

/-- C7: a participating row whose field list is too short for a requested
zero-based index (field count ≤ index, the code's `nb_values <= idx` test)
makes the line step — and hence the run — fail with the DataFormatError
carrying the 1-based line number, the missing 1-based column number
(`idx + 1`), and the row's full field list, provided the columns requested
before it are in range and convert successfully; nothing at or after the
failing column is appended. -/
theorem c7_short_line (cfg : Config) (conv : String → Option String) (i : Nat)
    (line : String) (values : List String) (pre post : List Int) (idx : Int)
    (st : DState) (rest : List String)
    (hread : read_values_of_line cfg line = .ok values)
    (hF : cfg.downsample ≠ 0) (hpart : i % cfg.downsample = 0)
    (hpre : ∀ j ∈ pre, ∃ v s, ¬((values.length : Int) ≤ j) ∧
      pyGet values j = some v ∧ convert_to_float cfg conv v i = .ok s)
    (hidx : (values.length : Int) ≤ idx)
    (hstop : stopReached cfg st.nb = false) :
    processLine cfg conv (pre ++ idx :: post) i line st =
      .error (.shortLine i (idx + 1) values) ∧
    create_dataset_from cfg conv (pre ++ idx :: post) (line :: rest) i st =
      .error (.shortLine i (idx + 1) values) := by
  have hbr := buildRow_shortLine cfg conv i values pre idx post hpre hidx
  have hpl : processLine cfg conv (pre ++ idx :: post) i line st =
      .error (.shortLine i (idx + 1) values) := by
    unfold processLine
    simp only [hread]
    rw [if_neg hF]
    unfold participate
    rw [if_pos hpart]
    simp only [hbr]
  refine ⟨hpl, ?_⟩
  rw [create_dataset_from_cons_go hstop]
  simp only [hpl]

/-- Configuration for C7's witness. -/
def cfgC7 : Config := ⟨",", ".", false, 1, 1, none⟩

/-- C7, witness: a one-field row with requested column 2 (zero-based index 1)
fails with the short-line error naming line 1, column 2, and the fields. -/
theorem c7_witness :
    processLine cfgC7 simpleFloat [1] 1 "1.0" initState =
      .error (.shortLine 1 2 ["1.0"]) ∧
    create_dataset_from cfgC7 simpleFloat [1] ["1.0"] 1 initState =
      .error (.shortLine 1 2 ["1.0"]) :=
  c7_short_line cfgC7 simpleFloat 1 "1.0" ["1.0"] [] [] 1 initState []
    rfl (by decide) rfl (by simp) (by decide) rfl

theorem forall₂_resolvesTo {hs : List String} :
    ∀ {sels : List Selector} {ids : List Int},
      (∀ s ∈ sels, ∃ t, s = Selector.label t) →
      List.Forall₂ (fun s (i : Int) => ∃ n, pyFindIdx hs s = some n ∧ i = (n : Int))
        sels ids →
      List.Forall₂ (ResolvesTo hs) sels ids := by
  intro sels
  induction sels with
  | nil =>
    intro ids _ hf
    cases hf
    exact List.Forall₂.nil
  | cons s rest ih =>
    intro ids hlab hf
    cases hf with
    | cons hhead htail =>
      obtain ⟨t, rfl⟩ := hlab s (by simp)
      obtain ⟨n, hn, rfl⟩ := hhead
      exact List.Forall₂.cons (pyFindIdx_resolvesTo hn)
        (ih (fun x hx => hlab x (List.mem_cons_of_mem _ hx)) htail)

/-- C8: with at least one label selector, (a) headers declared absent is a
ConfigurationError; (b) with headers present, resolution aborts with a
LookupError naming the first selector not found in the headers; (c) with
headers present and every selector a label occurring in the headers, each
resolves to the position of its first exact match in the header sequence. -/
theorem c8_label_selectors (cfg : Config) (headers : Option (List String))
    (sels : List Selector) :
    (sels ≠ [] → (∃ s ∈ sels, s.isInt = false) → cfg.hasHeaders = false →
      get_columns_indexes_to_keep cfg headers sels = .error .labelsNoHeaders) ∧
    (∀ (hs : List String) (pre : List Selector) (l : String) (post : List Selector),
      cfg.hasHeaders = true → headers = some hs →
      sels = pre ++ Selector.label l :: post →
      (∀ s ∈ pre, ∃ n, pyFindIdx hs s = some n) →
      pyFindIdx hs (.label l) = none →
      get_columns_indexes_to_keep cfg headers sels =
        .error (.labelNotFound (.label l))) ∧
    (∀ hs : List String, cfg.hasHeaders = true → headers = some hs →
      sels ≠ [] →
      (∀ s ∈ sels, ∃ t, s = Selector.label t) →
      (∀ s ∈ sels, ∃ n, pyFindIdx hs s = some n) →
      ∃ ids, get_columns_indexes_to_keep cfg headers sels = .ok ids ∧
        List.Forall₂ (ResolvesTo hs) sels ids) := by
  refine ⟨?_, ?_, ?_⟩
  · intro hne hlab hh
    obtain ⟨s, hsmem, hsint⟩ := hlab
    unfold get_columns_indexes_to_keep
    rw [if_neg (by simpa [List.isEmpty_iff] using hne)]
    rw [if_neg (by
      intro hall
      have := List.all_eq_true.mp hall s hsmem
      rw [hsint] at this
      exact Bool.false_ne_true this)]
    rw [if_pos (by rw [hh]; exact Bool.false_ne_true)]
  · intro hs pre l post hh hhd hsels hpre hnone
    subst hsels
    subst hhd
    unfold get_columns_indexes_to_keep
    rw [if_neg (by simp [List.isEmpty_iff])]
    rw [if_neg (by
      intro hall
      have := List.all_eq_true.mp hall (Selector.label l) (by simp)
      exact Bool.false_ne_true this)]
    rw [if_neg (by rw [hh]; simp)]
    exact resolveLabels_err_spec hs pre (.label l) post hpre hnone
  · intro hs hh hhd hne hlab hall
    subst hhd
    obtain ⟨ids, hids, hf⟩ := resolveLabels_ok_spec hs sels hall
    refine ⟨ids, ?_, forall₂_resolvesTo hlab hf⟩
    unfold get_columns_indexes_to_keep
    rw [if_neg (by simpa [List.isEmpty_iff] using hne)]
    rw [if_neg (by
      intro hallint
      cases sels with
      | nil => exact hne rfl
      | cons s rest =>
        obtain ⟨t, ht⟩ := hlab s (by simp)
        have := List.all_eq_true.mp hallint s (by simp)
        rw [ht] at this
        exact Bool.false_ne_true this)]
    rw [if_neg (by rw [hh]; simp)]
    exact hids

/-- Configuration for C8's witness. -/
def cfgC8 : Config := ⟨",", ".", true, 1, 1, none⟩

/-- C8, witness: the label selector "Y" resolves against headers ["X", "Y"]
to position 1 by exact match. -/
theorem c8_witness :
    ∃ ids, get_columns_indexes_to_keep cfgC8 (some ["X", "Y"])
        [Selector.label "Y"] = .ok ids ∧
      List.Forall₂ (ResolvesTo ["X", "Y"]) [Selector.label "Y"] ids :=
  (c8_label_selectors cfgC8 (some ["X", "Y"]) [Selector.label "Y"]).2.2
    ["X", "Y"] rfl rfl (by decide)
    (by
      intro s hsm
      simp only [List.mem_singleton] at hsm
      exact ⟨"Y", hsm⟩)
    (by
      intro s hsm
      simp only [List.mem_singleton] at hsm
      subst hsm
      exact ⟨1, rfl⟩)

/-- C9: the integer selector 0 resolves to zero-based index -1; the
short-line test `nb_values <= -1` can never fire (a split row always has at
least zero fields and the comparison is against -1), and Python's negative
indexing makes `values[-1]` the row's last field, so the run silently buffers
the last column instead of rejecting the out-of-range selector. -/
theorem c9_selector_zero :
    (∀ (cfg : Config) (headers : Option (List String)),
      get_columns_indexes_to_keep cfg headers [Selector.col 0] = .ok [-1]) ∧
    (∀ values : List String, values ≠ [] →
      ¬((values.length : Int) ≤ -1) ∧ pyGet values (-1) = values.getLast?) ∧
    (∀ (cfg : Config) (conv : String → Option String) (i : Nat)
       (values : List String) (v s : String),
      values.getLast? = some v →
      convert_to_float cfg conv v i = .ok s →
      buildRow cfg conv i values [-1] = .ok [s]) := by
  refine ⟨?_, ?_, ?_⟩
  · intro cfg headers
    rfl
  · intro values _
    exact ⟨by omega, pyGet_neg_one values⟩
  · intro cfg conv i values v s hlast hcv
    unfold buildRow
    rw [if_neg (by omega)]
    simp only [pyGet_neg_one, hlast, hcv, buildRow]

/-- C9, witness: on the two-field row ["7.7", "8.8"], the short-line check
for index -1 cannot fire and indexing yields the last field. -/
theorem c9_witness :
    ¬(((["7.7", "8.8"] : List String).length : Int) ≤ -1) ∧
    pyGet ["7.7", "8.8"] (-1) = (["7.7", "8.8"] : List String).getLast? :=
  c9_selector_zero.2.1 ["7.7", "8.8"] (by decide)

/-- C10: with the unbounded row limit, when the stream runs out leaving a
non-empty buffer short of the threshold, the run still succeeds: the flushed
count and the number of written lines equal the number of complete windows,
and the leftover values sit in the (discarded, never written) buffer. -/
theorem c10_partial_buffer (cfg : Config) (conv : String → Option String)
    (columns : List Int) (lines : List String) (st' : DState)
    (hL : cfg.linesToBuild = none) (hC : columns ≠ []) (hB : 0 < cfg.bufferSize)
    (hleftover : participCount cfg.downsample (startIndex cfg) lines.length %
      cfg.bufferSize ≠ 0)
    (h : create_dataset cfg conv columns lines = .ok st') :
    st'.nb = participCount cfg.downsample (startIndex cfg) lines.length /
      cfg.bufferSize ∧
    st'.outLines.length = st'.nb ∧
    st'.buf.length = (participCount cfg.downsample (startIndex cfg) lines.length %
      cfg.bufferSize) * columns.length ∧
    st'.buf ≠ [] := by
  have hcnt := loop_count_none cfg conv columns hL hB lines (startIndex cfg) 0
    initState st' (by simp [initState]) hB h
  have hout := loop_nb_out cfg conv columns lines (startIndex cfg) initState st'
    (by simp [initState]) h
  have hnb : st'.nb = participCount cfg.downsample (startIndex cfg) lines.length /
      cfg.bufferSize := by
    simpa [initState] using hcnt.1
  have hbuf : st'.buf.length =
      (participCount cfg.downsample (startIndex cfg) lines.length %
        cfg.bufferSize) * columns.length := by
    simpa [initState] using hcnt.2
  refine ⟨hnb, hout.symm, hbuf, ?_⟩
  intro hnil
  rw [hnil] at hbuf
  simp at hbuf
  rcases hbuf with h1 | h1
  · exact hleftover h1
  · exact hC h1

/-- Configuration for C10's witness. -/
def cfgC10 : Config := ⟨",", ".", false, 2, 1, none⟩

/-- C10, witness: three rows with buffer size 2 leave one complete window
written and one value discarded in the buffer. -/
theorem c10_witness :
    (DState.mk 1 ["3.0"] [["1.0", "2.0"]] "1.0,2.0" ["1.0", "2.0", "3.0"]).nb =
      participCount cfgC10.downsample (startIndex cfgC10)
        (["1.0", "2.0", "3.0"] : List String).length / cfgC10.bufferSize ∧
    (DState.mk 1 ["3.0"] [["1.0", "2.0"]] "1.0,2.0"
      ["1.0", "2.0", "3.0"]).outLines.length =
      (DState.mk 1 ["3.0"] [["1.0", "2.0"]] "1.0,2.0" ["1.0", "2.0", "3.0"]).nb ∧
    (DState.mk 1 ["3.0"] [["1.0", "2.0"]] "1.0,2.0"
      ["1.0", "2.0", "3.0"]).buf.length =
      (participCount cfgC10.downsample (startIndex cfgC10)
        (["1.0", "2.0", "3.0"] : List String).length % cfgC10.bufferSize) *
        ([(0 : Int)]).length ∧
    (DState.mk 1 ["3.0"] [["1.0", "2.0"]] "1.0,2.0" ["1.0", "2.0", "3.0"]).buf ≠ [] :=
  c10_partial_buffer cfgC10 simpleFloat [0] ["1.0", "2.0", "3.0"]
    (DState.mk 1 ["3.0"] [["1.0", "2.0"]] "1.0,2.0" ["1.0", "2.0", "3.0"])
    rfl (by decide) (by decide) (by decide) rfl
